import Mathlib

/-!
Verification of the oh-my-codex coordination core against its design
specification.  The definitions below are a shallow embedding of the
TypeScript sources: pure functions become Lean functions, the JavaScript
Date clock becomes an explicit string parameter, thrown exceptions become
an Except result, and the one in-place mutation performed by the source
(state.current_fix_attempt++ in transitionPhase) is made observable by
returning, next to the result object, the value of the argument object as
the caller sees it after the call.
-/

/-! ## Phase state machine (src/src/team/orchestrator.ts) -/

/-- Embeds the union type TeamPhase | TerminalPhase from orchestrator.ts:
the five staged phases plus the three terminal phases. -/
inductive TeamPhase where
  | plan
  | prd
  | exec
  | verify
  | fix
  | complete
  | failed
  | cancelled
deriving DecidableEq, Repr

/-- The string literal that names each phase in the source. -/
def TeamPhase.toStr : TeamPhase → String
  | .plan => "team-plan"
  | .prd => "team-prd"
  | .exec => "team-exec"
  | .verify => "team-verify"
  | .fix => "team-fix"
  | .complete => "complete"
  | .failed => "failed"
  | .cancelled => "cancelled"

/-- The terminal phases, as listed by the source expression
['complete', 'failed', 'cancelled'].includes(to). -/
def terminalPhases : List TeamPhase := [TeamPhase.complete, TeamPhase.failed, TeamPhase.cancelled]

/-- One entry of the phase_transitions log:
{ from: string; to: string; at: string; reason?: string }. -/
structure TransitionRecord where
  src : String
  dst : String
  at_ : String
  reason : Option String
deriving DecidableEq, Repr

/-- Task status union 'pending' | 'in_progress' | 'completed' | 'blocked'. -/
inductive TaskStatus where
  | pending
  | in_progress
  | completed
  | blocked
deriving DecidableEq, Repr

/-- The TeamTask interface of orchestrator.ts. -/
structure TeamTask where
  id : String
  subject : String
  description : String
  status : TaskStatus
  owner : Option String
  blockedBy : Option (List String)
  createdAt : String
  completedAt : Option String
deriving DecidableEq, Repr

/-- The TeamState interface of orchestrator.ts.  The numeric fields are
integer counters in every use, embedded as Nat. -/
structure TeamState where
  active : Bool
  phase : TeamPhase
  task_description : String
  created_at : String
  phase_transitions : List TransitionRecord
  tasks : List TeamTask
  max_fix_attempts : Nat
  current_fix_attempt : Nat
deriving DecidableEq, Repr

/-- The TRANSITIONS table.  The source Record has only the five
non-terminal keys, so indexing with a terminal phase yields undefined,
embedded as none. -/
def TRANSITIONS : TeamPhase → Option (List TeamPhase)
  | .plan => some [.prd]
  | .prd => some [.exec]
  | .exec => some [.verify]
  | .verify => some [.fix, .complete, .failed]
  | .fix => some [.exec, .verify, .complete, .failed]
  | _ => none

/-- isValidTransition from orchestrator.ts: allowed ? allowed.includes(to) : false. -/
def isValidTransition (src : TeamPhase) (tgt : TeamPhase) : Bool :=
  match TRANSITIONS src with
  | some allowed => allowed.contains tgt
  | none => false

/-- createTeamState from orchestrator.ts.  The createdAt parameter stands
for the call to new Date().toISOString(); the maxFixAttempts parameter
defaults to 3 as in the source. -/
def createTeamState (taskDescription : String) (createdAt : String)
    (maxFixAttempts : Nat := 3) : TeamState :=
  { active := true
  , phase := TeamPhase.plan
  , task_description := taskDescription
  , created_at := createdAt
  , phase_transitions := []
  , tasks := []
  , max_fix_attempts := maxFixAttempts
  , current_fix_attempt := 0 }

/-- The final return expression of transitionPhase: spread the state,
set the phase, compute active from terminality of the target, and append
one transition record. -/
def applyTransition (state : TeamState) (src tgt : TeamPhase)
    (reason : Option String) (atIso : String) : TeamState :=
  let isTerminal := terminalPhases.contains tgt
  { state with
      phase := tgt
    , active := !isTerminal
    , phase_transitions := state.phase_transitions ++ [⟨src.toStr, tgt.toStr, atIso, reason⟩] }

/-- transitionPhase from orchestrator.ts.  The atIso parameter stands for
new Date().toISOString().  The result pairs the returned object with the
argument object as the caller observes it after the call: on the
team-fix entry path the source executes state.current_fix_attempt++,
mutating the argument before spreading it, so there the second component
carries the incremented counter; on every other path the argument is
untouched. -/
def transitionPhase (state : TeamState) (tgt : TeamPhase)
    (reason : Option String) (atIso : String) :
    Except String (TeamState × TeamState) :=
  let src := state.phase
  if isValidTransition src tgt then
    if tgt = TeamPhase.fix then
      if state.current_fix_attempt ≥ state.max_fix_attempts then
        Except.ok
          ({ state with
               phase := TeamPhase.failed
             , active := false
             , phase_transitions := state.phase_transitions ++
                 [⟨src.toStr, TeamPhase.failed.toStr, atIso, some "Max fix attempts exceeded"⟩] }
          , state)
      else
        let mutated := { state with current_fix_attempt := state.current_fix_attempt + 1 }
        Except.ok (applyTransition mutated src tgt reason atIso, mutated)
    else
      Except.ok (applyTransition state src tgt reason atIso, state)
  else
    Except.error ("Invalid transition: " ++ src.toStr ++ " -> " ++ tgt.toStr)

/-- Runs one transition and keeps the returned state, used to spell out
concrete call chains; a failed step keeps the input unchanged, so a chain
whose final log has one record per step certifies that every step
succeeded. -/
def stepOk (s : TeamState) (tgt : TeamPhase) (reason : Option String) (atIso : String) : TeamState :=
  match transitionPhase s tgt reason atIso with
  | Except.ok (s', _) => s'
  | Except.error _ => s

/-- The states produced by createTeamState followed by any sequence of
successful transitionPhase calls, chaining each call on the state the
previous call returned. -/
inductive ReachableTeamState : TeamState → Prop where
  | base (desc createdAt : String) (maxFixAttempts : Nat) :
      ReachableTeamState (createTeamState desc createdAt maxFixAttempts)
  | step {s s' arg : TeamState} (tgt : TeamPhase) (reason : Option String) (atIso : String) :
      ReachableTeamState s →
      transitionPhase s tgt reason atIso = Except.ok (s', arg) →
      ReachableTeamState s'

/-- The set of phases named by the specification. -/
def specPhaseList : List TeamPhase :=
  [TeamPhase.plan, TeamPhase.prd, TeamPhase.exec, TeamPhase.verify,
   TeamPhase.fix, TeamPhase.complete, TeamPhase.failed, TeamPhase.cancelled]

/-- The three TeamState invariants claimed by the specification. -/
def teamInvariant (s : TeamState) : Prop :=
  specPhaseList.contains s.phase = true ∧
  s.current_fix_attempt ≤ s.max_fix_attempts ∧
  (terminalPhases.contains s.phase = true → s.active = false)

/-! ## State and mailbox store

The mailbox communication layer under verification is the unnamed source
file holding queueInboxInstruction, queueDirectMailboxMessage and
queueBroadcastMailboxMessage.  That file imports its durable-store
operations (teamWriteWorkerInbox, teamSendMessage, teamBroadcast,
teamMarkMessageNotified) from a team-ops module that is not among the
given sources, so those four operations are modelled from the
specification's data model and section on the store; the three queue
functions themselves are translated from the source. -/

/-- The MailboxMessage record of the data model: unique message id, sender,
recipient, body, creation time, and the notified_at stamp that is set only
after a pane-notification attempt reports success. -/
structure MailboxMessage where
  message_id : Nat
  from_worker : String
  to_worker : String
  body : String
  created_at : String
  notified_at : Option String
deriving DecidableEq, Repr

/-- The durable per-team store the mailbox layer writes: the team's worker
roster, one freeform inbox document per worker (overwritten in place), one
ordered mailbox per worker, and the next fresh message id. -/
structure WorkerStore where
  workers : List String
  inboxes : String → String
  mailboxes : String → List MailboxMessage
  next_message_id : Nat

/-- Modelled from the spec: teamWriteWorkerInbox of the team-ops module is
not among the given sources.  The WorkerRecord inbox is freeform
instruction text, overwritten in place. -/
def teamWriteWorkerInbox (store : WorkerStore) (workerName text : String) : WorkerStore :=
  { store with inboxes := fun w => if w = workerName then text else store.inboxes w }

/-- Modelled from the spec: teamSendMessage of the team-ops module is not
among the given sources.  A MailboxMessage is created once by a sender
with a fresh id and an unset notified_at stamp, and appended to the
recipient's ordered mailbox; the created message is returned. -/
def teamSendMessage (store : WorkerStore) (fromWorker toWorker body atIso : String) :
    MailboxMessage × WorkerStore :=
  let msg : MailboxMessage :=
    ⟨store.next_message_id, fromWorker, toWorker, body, atIso, none⟩
  (msg,
   { store with
       mailboxes := fun w =>
         if w = toWorker then store.mailboxes toWorker ++ [msg] else store.mailboxes w
     , next_message_id := store.next_message_id + 1 })

/-- Modelled from the spec: teamMarkMessageNotified of the team-ops module
is not among the given sources.  A stored message is immutable except for
the notified_at stamp, set on the message with the given id in the
recipient's mailbox. -/
def teamMarkMessageNotified (store : WorkerStore) (workerName : String)
    (messageId : Nat) (atIso : String) : WorkerStore :=
  { store with
      mailboxes := fun w =>
        if w = workerName then
          (store.mailboxes workerName).map fun m =>
            if m.message_id = messageId then { m with notified_at := some atIso } else m
        else store.mailboxes w }

/-- Recursion over the roster for teamBroadcast: one stored message per
worker, skipping the sender. -/
def teamBroadcastGo (ws : List String) (store : WorkerStore)
    (fromWorker body atIso : String) : List MailboxMessage × WorkerStore :=
  match ws with
  | [] => ([], store)
  | w :: rest =>
    if w = fromWorker then teamBroadcastGo rest store fromWorker body atIso
    else
      let sent := teamSendMessage store fromWorker w body atIso
      let next := teamBroadcastGo rest sent.2 fromWorker body atIso
      (sent.1 :: next.1, next.2)

/-- Modelled from the spec: teamBroadcast of the team-ops module is not
among the given sources.  A broadcast fans one logical send into one
stored message per roster worker excluding the sender, returning the
stored messages. -/
def teamBroadcast (store : WorkerStore) (fromWorker body atIso : String) :
    List MailboxMessage × WorkerStore :=
  teamBroadcastGo store.workers store fromWorker body atIso

/-- The TeamNotifierTarget interface of the mailbox source. -/
structure TeamNotifierTarget where
  workerName : String
  workerIndex : Option Nat
  paneId : Option String
deriving DecidableEq, Repr

/-- Events emitted by the mailbox layer, in execution order, used to state
ordering properties of a call. -/
inductive CommEvent where
  | writeInbox (workerName text : String)
  | notifyPane (workerName trigger : String)
deriving DecidableEq, Repr

/-- queueInboxInstruction from the mailbox source: overwrite the
recipient's inbox in the store, then invoke the notify callback and
return its resolved boolean.  The callback is the TeamNotifier of the
source, an arbitrary possibly asynchronous procedure that may read the
durable store, so it is modelled as a function receiving the store as it
stands at the moment of the call.  Next to the resolved boolean and the
final store, the model returns the list of effects in execution order. -/
def queueInboxInstruction (store : WorkerStore) (workerName : String)
    (workerIndex : Nat) (paneId : Option String) (inbox triggerMessage : String)
    (notify : WorkerStore → TeamNotifierTarget → String → Bool) :
    Bool × WorkerStore × List CommEvent :=
  let store1 := teamWriteWorkerInbox store workerName inbox
  let ok := notify store1 ⟨workerName, some workerIndex, paneId⟩ triggerMessage
  (ok, store1,
   [CommEvent.writeInbox workerName inbox, CommEvent.notifyPane workerName triggerMessage])

/-- queueDirectMailboxMessage from the mailbox source: durably store one
message for the recipient, invoke notify, and mark the stored message
notified only when notify resolved true.  The notify callback reports
failure as a resolved false, never by throwing, so it is modelled as a
boolean-valued function of the target and trigger message. -/
def queueDirectMailboxMessage (store : WorkerStore) (fromWorker toWorker : String)
    (toWorkerIndex : Option Nat) (toPaneId : Option String)
    (body triggerMessage atIso : String)
    (notify : TeamNotifierTarget → String → Bool) : WorkerStore :=
  let (message, store1) := teamSendMessage store fromWorker toWorker body atIso
  let notified := notify ⟨toWorker, toWorkerIndex, toPaneId⟩ triggerMessage
  if notified then teamMarkMessageNotified store1 toWorker message.message_id atIso
  else store1

/-- One element of the recipients array of queueBroadcastMailboxMessage. -/
structure BroadcastRecipient where
  workerName : String
  workerIndex : Nat
  paneId : Option String
deriving DecidableEq, Repr

/-- The per-message loop of queueBroadcastMailboxMessage: look the stored
message's recipient up in the recipients array (the source builds a Map
keyed by workerName), skip messages without a matching recipient, notify
the matching recipient, and mark the message notified only when notify
resolved true. -/
def queueBroadcastLoop (msgs : List MailboxMessage) (store : WorkerStore)
    (recipients : List BroadcastRecipient) (triggerFor : String → String)
    (notify : TeamNotifierTarget → String → Bool) (atIso : String) : WorkerStore :=
  match msgs with
  | [] => store
  | m :: rest =>
    match recipients.find? (fun r => r.workerName == m.to_worker) with
    | none => queueBroadcastLoop rest store recipients triggerFor notify atIso
    | some r =>
      let notified := notify ⟨r.workerName, some r.workerIndex, r.paneId⟩ (triggerFor r.workerName)
      let store1 :=
        if notified then teamMarkMessageNotified store r.workerName m.message_id atIso
        else store
      queueBroadcastLoop rest store1 recipients triggerFor notify atIso

/-- queueBroadcastMailboxMessage from the mailbox source: durably store
one message per roster worker excluding the sender, then notify and mark
each stored message's recipient independently. -/
def queueBroadcastMailboxMessage (store : WorkerStore) (fromWorker : String)
    (recipients : List BroadcastRecipient) (body atIso : String)
    (triggerFor : String → String)
    (notify : TeamNotifierTarget → String → Bool) : WorkerStore :=
  let sent := teamBroadcast store fromWorker body atIso
  queueBroadcastLoop sent.1 sent.2 recipients triggerFor notify atIso

/-- Store invariant: every stored message id is below the next fresh id. -/
def freshIds (store : WorkerStore) : Prop :=
  ∀ w, ∀ m ∈ store.mailboxes w, m.message_id < store.next_message_id

/-! ## Health diagnostics (team scope) -/

/-- A team config document, config.json: a name and the multiplexer
session it references. -/
structure TeamRecord where
  name : String
  tmux_session : String
deriving DecidableEq, Repr

/-- Modelled from the spec: the team-scope health-check implementation is
not among the given sources; only its CLI tests are
(src/src/cli/__tests__/index.test.ts).  Per the health-diagnostics
section, the check reconciles team records against live multiplexer
sessions: a team record referencing a session the multiplexer reports
absent yields resume_blocker; a live session matching the omx-team-
naming convention with no corresponding team record yields
orphan_tmux_session; when the multiplexer binary is entirely unavailable
(modelled as a none session list) the session-dependent checks are
skipped.  The two session-independent checks (slow_shutdown,
delayed_status_lag) are additive and independent and are outside this
model. -/
def teamDoctorSessionFindings (tmuxSessions : Option (List String))
    (teams : List TeamRecord) : List String :=
  match tmuxSessions with
  | none => []
  | some sessions =>
      (teams.filter fun t => !(sessions.contains t.tmux_session)).map
        (fun _ => "resume_blocker") ++
      (sessions.filter fun s =>
          s.startsWith "omx-team-" && !(teams.any fun t => t.tmux_session == s)).map
        (fun _ => "orphan_tmux_session")

/-- Modelled from the spec: the health-check command exits 0 if no check
fires and non-zero otherwise (restricted to the two session-dependent
checks modelled here). -/
def teamDoctorExitCode (tmuxSessions : Option (List String))
    (teams : List TeamRecord) : Nat :=
  if teamDoctorSessionFindings tmuxSessions teams = [] then 0 else 1

/-! ## Leader nudge service (docs/hooks-extension.md, maybeNudgeTeamLeader) -/

/-- The persisted per-team nudge record of team-leader-nudge.json. -/
structure NudgeRecord where
  at_ : String
  last_message_id : String
deriving DecidableEq, Repr

/-- What one per-team iteration of maybeNudgeTeamLeader did.  The record
field is the team's entry of last_nudged_by_team as it stands when the
pass persists the nudge-state file; sent is the marked text written to the
pane when the multiplexer send succeeded; error_logged reports the
best-effort log write of the catch branch; state_persisted reports the
final best-effort writeFile of team-leader-nudge.json, which the pass
always attempts. -/
structure NudgeOutcome where
  record : Option NudgeRecord
  sent : Option String
  reason : String
  error_logged : Bool
  state_persisted : Bool
deriving DecidableEq, Repr

/-- The last_message_id recorded for a team, empty when no record. -/
def nudgePrevMsgId (prev : Option NudgeRecord) : String :=
  match prev with
  | some p => p.last_message_id
  | none => ""

/-- The hasNewMessage guard of the source: the mailbox's newest message
id is non-empty and differs from the recorded last-seen id. -/
def nudgeHasNewMessage (prev : Option NudgeRecord) (newestId : String) : Bool :=
  newestId != "" && newestId != nudgePrevMsgId prev

/-- The dueByTime guard of the source: no finite previous nudge time, or
the configured interval has elapsed since it. -/
def nudgeDueByTime (prevAtMs : Option Nat) (nowMs intervalMs : Nat) : Bool :=
  match prevAtMs with
  | none => true
  | some t => intervalMs ≤ nowMs - t

/-- One per-team iteration of maybeNudgeTeamLeader from the hooks design
document, for a team whose config names a multiplexer target.  Inputs
mirror the values the source reads: the previous nudge record and the
result of Date.parse on its timestamp (none when missing or unparsable),
the newest leader-mailbox message id (empty string when the mailbox is
empty), the message and live-pane counts, pane liveness, the
pre-computed leader staleness, the clock and the configured interval, and
whether the three tmux send-keys invocations succeed (sendOk); marker is
the fixed machine-detectable suffix DEFAULT_MARKER imported by the
source.  The source updates last_nudged_by_team only inside the try
block, after the sends; on a send failure the catch logs a
team_leader_nudge error event and the record keeps its previous value;
the nudge-state file is written in both cases. -/
def maybeNudgeTeamLeaderTeam (teamName : String) (prev : Option NudgeRecord)
    (prevAtMs : Option Nat) (newestId : String) (messageCount paneCount : Nat)
    (paneAlive leaderStale : Bool) (nowMs intervalMs : Nat) (nowIso marker : String)
    (sendOk : Bool) : NudgeOutcome :=
  let prevMsgId := nudgePrevMsgId prev
  let hasNewMessage := nudgeHasNewMessage prev newestId
  let dueByTime := nudgeDueByTime prevAtMs nowMs intervalMs
  let stalePanesNudge := paneAlive && leaderStale
  if !hasNewMessage && !dueByTime then
    { record := prev, sent := none, reason := "", error_logged := false, state_persisted := true }
  else
    let nudgeReason :=
      if stalePanesNudge && hasNewMessage then "stale_leader_with_messages"
      else if stalePanesNudge then "stale_leader_panes_alive"
      else if hasNewMessage then "new_mailbox_message"
      else "periodic_check"
    let text :=
      if stalePanesNudge && hasNewMessage then
        "Team " ++ teamName ++ ": leader stale, " ++ toString paneCount ++
          " pane(s) active, " ++ toString messageCount ++
          " msg(s) pending. Run: omx team status " ++ teamName
      else if stalePanesNudge then
        "Team " ++ teamName ++ ": leader stale, " ++ toString paneCount ++
          " worker pane(s) still active. Run: omx team status " ++ teamName
      else if hasNewMessage then
        "Team " ++ teamName ++ ": " ++ toString messageCount ++
          " msg(s) for leader. Run: omx team status " ++ teamName
      else
        "Team " ++ teamName ++ " active. Run: omx team status " ++ teamName
    let capped := if 180 < text.length then (text.take 177) ++ "..." else text
    let markedText := capped ++ " " ++ marker
    if sendOk then
      { record := some ⟨nowIso, if newestId != "" then newestId else prevMsgId⟩
      , sent := some markedText
      , reason := nudgeReason
      , error_logged := false
      , state_persisted := true }
    else
      { record := prev
      , sent := none
      , reason := nudgeReason
      , error_logged := true
      , state_persisted := true }

/-! ## Concrete inputs used by the theorems below -/

/-- A state in team-verify with an untouched fix budget, reached from
createTeamState by the canonical plan, prd, exec, verify pipeline. -/
def verifyState0 : TeamState :=
  stepOk (stepOk (stepOk (createTeamState "immutable" "t0")
    TeamPhase.prd none "t1") TeamPhase.exec none "t2") TeamPhase.verify none "t3"

/-- The state after two verify-fix-verify cycles of a team created with
max_fix_attempts 2, mirroring the bounded-loop regression test. -/
def boundedVerify3 : TeamState :=
  stepOk (stepOk (stepOk (stepOk (stepOk (stepOk (stepOk
    (createTeamState "bounded loop" "t0" 2)
    TeamPhase.prd none "t1") TeamPhase.exec none "t2") TeamPhase.verify none "t3")
    TeamPhase.fix (some "attempt 1") "t4") TeamPhase.verify none "t5")
    TeamPhase.fix (some "attempt 2") "t6") TeamPhase.verify none "t7"

/-- A verify-phase state whose fix budget is exhausted. -/
def overflowInput : TeamState :=
  { active := true
  , phase := TeamPhase.verify
  , task_description := "demo"
  , created_at := "t0"
  , phase_transitions := []
  , tasks := []
  , max_fix_attempts := 2
  , current_fix_attempt := 2 }

/-- A two-worker store with empty inboxes and mailboxes. -/
def emptyStore2 : WorkerStore :=
  ⟨["worker-1", "worker-2"], fun _ => "", fun _ => [], 0⟩

/-- A three-worker store with empty inboxes and mailboxes. -/
def emptyStore3 : WorkerStore :=
  ⟨["worker-1", "worker-2", "worker-3"], fun _ => "", fun _ => [], 0⟩

/-- A notify callback whose pane notification always reports failure. -/
def notifyNever : TeamNotifierTarget → String → Bool := fun _ _ => false

/-- A notify callback that succeeds exactly for worker-2. -/
def notifyOnlyW2 : TeamNotifierTarget → String → Bool :=
  fun t _ => t.workerName == "worker-2"

/-! ## Phase state machine: characterization lemmas -/

/-- An invalid pair makes transitionPhase throw. -/
theorem transitionPhase_invalid (s : TeamState) (tgt : TeamPhase)
    (reason : Option String) (atIso : String)
    (h : isValidTransition s.phase tgt = false) :
    transitionPhase s tgt reason atIso =
      Except.error ("Invalid transition: " ++ s.phase.toStr ++ " -> " ++ tgt.toStr) := by
  simp [transitionPhase, h]

/-- A team-fix request with the budget exhausted is redirected to failed. -/
theorem transitionPhase_overflow (s : TeamState) (reason : Option String) (atIso : String)
    (h : isValidTransition s.phase TeamPhase.fix = true)
    (hm : s.max_fix_attempts ≤ s.current_fix_attempt) :
    transitionPhase s TeamPhase.fix reason atIso =
      Except.ok
        ({ s with
             phase := TeamPhase.failed
           , active := false
           , phase_transitions := s.phase_transitions ++
               [⟨s.phase.toStr, "failed", atIso, some "Max fix attempts exceeded"⟩] }
         , s) := by
  simp [transitionPhase, h, hm, TeamPhase.toStr]

/-- A team-fix request within budget increments the counter (mutating the
argument) and then performs the ordinary transition. -/
theorem transitionPhase_fix_step (s : TeamState) (reason : Option String) (atIso : String)
    (h : isValidTransition s.phase TeamPhase.fix = true)
    (hm : s.current_fix_attempt < s.max_fix_attempts) :
    transitionPhase s TeamPhase.fix reason atIso =
      Except.ok
        (applyTransition { s with current_fix_attempt := s.current_fix_attempt + 1 }
           s.phase TeamPhase.fix reason atIso
        , { s with current_fix_attempt := s.current_fix_attempt + 1 }) := by
  simp [transitionPhase, h, not_le.mpr hm]

/-- A valid request for any target other than team-fix performs the
ordinary transition and leaves the argument untouched. -/
theorem transitionPhase_nonfix (s : TeamState) (tgt : TeamPhase)
    (reason : Option String) (atIso : String)
    (h : isValidTransition s.phase tgt = true) (hf : tgt ≠ TeamPhase.fix) :
    transitionPhase s tgt reason atIso =
      Except.ok (applyTransition s s.phase tgt reason atIso, s) := by
  simp [transitionPhase, h, hf]

/-- From a terminal phase no pair is in the table. -/
theorem isValidTransition_terminal (s : TeamState) (tgt : TeamPhase)
    (h : terminalPhases.contains s.phase = true) :
    isValidTransition s.phase tgt = false := by
  cases hp : s.phase <;> rw [hp] at h <;>
    first
      | rfl
      | exact absurd h (by decide)

/-- C10: for every task description, createTeamState returns a state in
team-plan, active, with a zero fix counter, an empty transition log, an
empty task list, and, the maxFixAttempts argument being omitted,
max_fix_attempts 3. -/
theorem createTeamState_initial (desc createdAt : String) :
    createTeamState desc createdAt =
      { active := true
      , phase := TeamPhase.plan
      , task_description := desc
      , created_at := createdAt
      , phase_transitions := []
      , tasks := []
      , max_fix_attempts := 3
      , current_fix_attempt := 0 } := rfl

/-- C1 is refuted by the code, which its own regression test contradicts:
on entry into team-fix the source executes state.current_fix_attempt++ on
its argument.  At the verify-phase state below the caller's argument
object carries fix counter 1 after the call although it held 0 before the
call, so transitionPhase does mutate its input on that path. -/
theorem transitionPhase_mutates_argument_on_fix_entry :
    verifyState0.current_fix_attempt = 0 ∧
    (transitionPhase verifyState0 TeamPhase.fix (some "needs fixes") "t4").toOption.map
        (fun p => p.2.current_fix_attempt) = some 1 :=
  ⟨rfl, rfl⟩

/-- C2 is refuted by the code on the wording of the system reason, which
the repository's own bounded-loop test contradicts: after two
verify-fix-verify cycles of a team with max_fix_attempts 2, the third
team-fix request does yield phase failed, active false and a trailing
system record, but the recorded reason is the string Max fix attempts
exceeded, which does not match the claimed pattern team-fix loop limit
reached (2). -/
theorem transitionPhase_overflow_reason_wording :
    boundedVerify3.phase = TeamPhase.verify ∧
    boundedVerify3.current_fix_attempt = 2 ∧
    boundedVerify3.max_fix_attempts = 2 ∧
    boundedVerify3.phase_transitions.length = 7 ∧
    transitionPhase boundedVerify3 TeamPhase.fix (some "attempt 3") "t8" =
      Except.ok
        ({ boundedVerify3 with
             phase := TeamPhase.failed
           , active := false
           , phase_transitions := boundedVerify3.phase_transitions ++
               [⟨"team-verify", "failed", "t8", some "Max fix attempts exceeded"⟩] }
         , boundedVerify3) ∧
    "Max fix attempts exceeded" ≠ "team-fix loop limit reached (2)" :=
  ⟨rfl, rfl, rfl, rfl, rfl, by decide⟩

/-- C3 amended: every pair outside the transition table, in particular
every pair whose source phase is terminal, makes transitionPhase throw;
every pair in the table succeeds and appends exactly one record to the
log, altering no existing record; the appended record is the requested
(from, to, at, reason) record except when the request enters team-fix
with the budget exhausted, where the record redirects to failed with the
system reason. -/
theorem transitionPhase_table_and_log (s : TeamState) (tgt : TeamPhase)
    (reason : Option String) (atIso : String) :
    (terminalPhases.contains s.phase = true → isValidTransition s.phase tgt = false) ∧
    (isValidTransition s.phase tgt = false →
      transitionPhase s tgt reason atIso =
        Except.error ("Invalid transition: " ++ s.phase.toStr ++ " -> " ++ tgt.toStr)) ∧
    (isValidTransition s.phase tgt = true →
      ∃ s' arg, transitionPhase s tgt reason atIso = Except.ok (s', arg) ∧
        s'.phase_transitions = s.phase_transitions ++
          [if tgt = TeamPhase.fix ∧ s.max_fix_attempts ≤ s.current_fix_attempt then
             ⟨s.phase.toStr, "failed", atIso, some "Max fix attempts exceeded"⟩
           else ⟨s.phase.toStr, tgt.toStr, atIso, reason⟩]) := by
  refine ⟨isValidTransition_terminal s tgt, fun h => transitionPhase_invalid s tgt reason atIso h, fun h => ?_⟩
  by_cases hf : tgt = TeamPhase.fix
  · subst hf
    by_cases hm : s.max_fix_attempts ≤ s.current_fix_attempt
    · exact ⟨_, _, transitionPhase_overflow s reason atIso h hm,
        by rw [if_pos ⟨rfl, hm⟩]⟩
    · refine ⟨_, _, transitionPhase_fix_step s reason atIso h (not_le.mp hm), ?_⟩
      rw [if_neg (fun hc => hm hc.2)]
      rfl
  · refine ⟨_, _, transitionPhase_nonfix s tgt reason atIso h hf, ?_⟩
    rw [if_neg (fun hc => hf hc.1)]
    rfl

/-- Witness for the amended C3 at a concrete input: from team-plan the
target team-verify is not in the table and the call throws. -/
theorem transitionPhase_table_and_log_witness :
    transitionPhase (createTeamState "w" "t0") TeamPhase.verify none "t1" =
      Except.error ("Invalid transition: " ++ TeamPhase.plan.toStr ++ " -> " ++ TeamPhase.verify.toStr) :=
  (transitionPhase_table_and_log (createTeamState "w" "t0") TeamPhase.verify none "t1").2.1 (by decide)

/-- C3 is false as stated: at a verify-phase state whose fix budget is
exhausted, the pair (team-verify, team-fix) is in the table and the call
succeeds, yet the one appended record is not the requested
(from, to, at, reason) record: its to field is failed, not team-fix, and
its reason is the system reason, not the caller's. -/
theorem transitionPhase_overflow_record_differs :
    isValidTransition overflowInput.phase TeamPhase.fix = true ∧
    (transitionPhase overflowInput TeamPhase.fix (some "requested") "t1").toOption.map
        (fun p => p.1.phase_transitions) =
      some [⟨"team-verify", "failed", "t1", some "Max fix attempts exceeded"⟩] ∧
    ([⟨"team-verify", "failed", "t1", some "Max fix attempts exceeded"⟩] : List TransitionRecord) ≠
      overflowInput.phase_transitions ++ [⟨"team-verify", "team-fix", "t1", some "requested"⟩] :=
  ⟨rfl, rfl, by decide⟩

/-- Terminal phases accept no further transition at all. -/
theorem terminal_no_transition (s : TeamState)
    (h : terminalPhases.contains s.phase = true) (tgt : TeamPhase)
    (reason : Option String) (atIso : String) :
    ∃ msg, transitionPhase s tgt reason atIso = Except.error msg :=
  ⟨_, transitionPhase_invalid s tgt reason atIso (isValidTransition_terminal s tgt h)⟩

/-- Field readings of applyTransition. -/
theorem applyTransition_spec (st : TeamState) (src tgt : TeamPhase)
    (reason : Option String) (atIso : String) :
    (applyTransition st src tgt reason atIso).phase = tgt ∧
    (applyTransition st src tgt reason atIso).active = !(terminalPhases.contains tgt) ∧
    (applyTransition st src tgt reason atIso).current_fix_attempt = st.current_fix_attempt ∧
    (applyTransition st src tgt reason atIso).max_fix_attempts = st.max_fix_attempts ∧
    (applyTransition st src tgt reason atIso).phase_transitions =
      st.phase_transitions ++ [⟨src.toStr, tgt.toStr, atIso, reason⟩] :=
  ⟨rfl, rfl, rfl, rfl, rfl⟩

/-- Every phase is a member of the defined phase set. -/
theorem specPhaseList_contains (p : TeamPhase) : specPhaseList.contains p = true := by
  cases p <;> rfl

/-- A successful transitionPhase call preserves the three invariants. -/
theorem transitionPhase_ok_preserves (s : TeamState) (tgt : TeamPhase)
    (reason : Option String) (atIso : String) (s' arg : TeamState)
    (heq : transitionPhase s tgt reason atIso = Except.ok (s', arg))
    (ih : teamInvariant s) : teamInvariant s' := by
  by_cases hv : isValidTransition s.phase tgt = true
  · by_cases hf : tgt = TeamPhase.fix
    · subst hf
      by_cases hm : s.max_fix_attempts ≤ s.current_fix_attempt
      · rw [transitionPhase_overflow s reason atIso hv hm, Except.ok.injEq,
          Prod.mk.injEq] at heq
        obtain ⟨rfl, -⟩ := heq
        exact ⟨rfl, ih.2.1, fun _ => rfl⟩
      · rw [transitionPhase_fix_step s reason atIso hv (not_le.mp hm), Except.ok.injEq,
          Prod.mk.injEq] at heq
        obtain ⟨rfl, -⟩ := heq
        refine ⟨?_, ?_, ?_⟩
        · rw [(applyTransition_spec _ _ _ _ _).1]
          rfl
        · rw [(applyTransition_spec _ _ _ _ _).2.2.1,
            (applyTransition_spec _ _ _ _ _).2.2.2.1]
          exact Nat.succ_le_of_lt (not_le.mp hm)
        · intro hc
          rw [(applyTransition_spec _ _ _ _ _).1] at hc
          exact absurd hc (by decide)
    · rw [transitionPhase_nonfix s tgt reason atIso hv hf, Except.ok.injEq,
        Prod.mk.injEq] at heq
      obtain ⟨rfl, -⟩ := heq
      refine ⟨?_, ?_, ?_⟩
      · rw [(applyTransition_spec _ _ _ _ _).1]
        exact specPhaseList_contains tgt
      · rw [(applyTransition_spec _ _ _ _ _).2.2.1,
          (applyTransition_spec _ _ _ _ _).2.2.2.1]
        exact ih.2.1
      · intro hc
        rw [(applyTransition_spec _ _ _ _ _).1] at hc
        rw [(applyTransition_spec _ _ _ _ _).2.1, hc]
        rfl
  · have hv' : isValidTransition s.phase tgt = false := by
      revert hv
      cases isValidTransition s.phase tgt <;> simp
    rw [transitionPhase_invalid s tgt reason atIso hv'] at heq
    exact absurd heq (by simp)

/-- C4: every state reachable from createTeamState through successful
transitionPhase calls has a phase from the defined set, keeps
current_fix_attempt at most max_fix_attempts, and, once the phase is
terminal, is inactive and accepts no further transition. -/
theorem reachable_teamInvariant (s : TeamState) (h : ReachableTeamState s) :
    teamInvariant s ∧
    (terminalPhases.contains s.phase = true →
      ∀ tgt reason atIso, ∃ msg, transitionPhase s tgt reason atIso = Except.error msg) := by
  refine ⟨?_, fun ht tgt reason atIso => terminal_no_transition s ht tgt reason atIso⟩
  induction h with
  | base desc createdAt maxFixAttempts =>
      exact ⟨rfl, Nat.zero_le _, fun hc => Bool.noConfusion hc⟩
  | step tgt reason atIso hr heq ih =>
      exact transitionPhase_ok_preserves _ tgt reason atIso _ _ heq ih

/-- Witness for C4 at a concrete reachable state, the freshly created one. -/
theorem reachable_teamInvariant_witness :
    teamInvariant (createTeamState "w" "t0" 3) ∧
    (terminalPhases.contains (createTeamState "w" "t0" 3).phase = true →
      ∀ tgt reason atIso, ∃ msg,
        transitionPhase (createTeamState "w" "t0" 3) tgt reason atIso = Except.error msg) :=
  reachable_teamInvariant _ (ReachableTeamState.base "w" "t0" 3)

/-! ## Mailbox communication layer -/

/-- Marking an id that no member of a list carries leaves the list as it
is. -/
theorem map_mark_fresh (l : List MailboxMessage) (id : Nat) (atIso : String)
    (h : ∀ m ∈ l, m.message_id ≠ id) :
    l.map (fun m =>
      if m.message_id = id then { m with notified_at := some atIso } else m) = l := by
  induction l with
  | nil => rfl
  | cons a t ihv =>
      rw [List.map_cons, if_neg (h a (List.mem_cons_self a t)),
        ihv fun m hm => h m (List.mem_cons_of_mem a hm)]

/-- Marking one worker's message changes no other worker's mailbox. -/
theorem teamMarkMessageNotified_ne (store : WorkerStore) (workerName : String)
    (messageId : Nat) (atIso : String) (w : String) (hw : w ≠ workerName) :
    (teamMarkMessageNotified store workerName messageId atIso).mailboxes w =
      store.mailboxes w := by
  simp [teamMarkMessageNotified, hw]

/-- Marking a fresh message appended to a worker's mailbox stamps exactly
that message. -/
theorem teamMarkMessageNotified_append (store : WorkerStore) (workerName : String)
    (orig : List MailboxMessage) (msg : MailboxMessage) (atIso : String)
    (hmb : store.mailboxes workerName = orig ++ [msg])
    (hfr : ∀ m ∈ orig, m.message_id ≠ msg.message_id) :
    (teamMarkMessageNotified store workerName msg.message_id atIso).mailboxes workerName =
      orig ++ [{ msg with notified_at := some atIso }] := by
  simp only [teamMarkMessageNotified, if_pos rfl]
  rw [hmb, List.map_append, map_mark_fresh orig msg.message_id atIso hfr,
    List.map_singleton]
  simp

/-- C5: queueDirectMailboxMessage stores exactly one message in the
recipient's mailbox (and touches no other mailbox); the stored message's
notified_at stamp is set if and only if the notify callback resolves
true, and when notify resolves false the message persists with the stamp
unset.  The callback reports failure as a resolved false by its type, so
the call itself never raises. -/
theorem queueDirectMailboxMessage_spec (store : WorkerStore)
    (fromWorker toWorker : String) (toWorkerIndex : Option Nat) (toPaneId : Option String)
    (body triggerMessage atIso : String) (notify : TeamNotifierTarget → String → Bool)
    (hfresh : freshIds store) :
    (queueDirectMailboxMessage store fromWorker toWorker toWorkerIndex toPaneId body
        triggerMessage atIso notify).mailboxes toWorker =
      store.mailboxes toWorker ++
        [⟨store.next_message_id, fromWorker, toWorker, body, atIso,
          if notify ⟨toWorker, toWorkerIndex, toPaneId⟩ triggerMessage then some atIso
          else none⟩] ∧
    (∀ w, w ≠ toWorker →
      (queueDirectMailboxMessage store fromWorker toWorker toWorkerIndex toPaneId body
          triggerMessage atIso notify).mailboxes w = store.mailboxes w) := by
  constructor
  · by_cases hn : notify ⟨toWorker, toWorkerIndex, toPaneId⟩ triggerMessage = true
    · simp only [queueDirectMailboxMessage, teamSendMessage, hn, if_pos]
      rw [teamMarkMessageNotified_append _ toWorker (store.mailboxes toWorker)
          ⟨store.next_message_id, fromWorker, toWorker, body, atIso, none⟩ atIso
          (by simp)
          (fun m hm => Nat.ne_of_lt (hfresh toWorker m hm))]
    · rw [Bool.not_eq_true] at hn
      simp [queueDirectMailboxMessage, teamSendMessage, hn]
  · intro w hw
    by_cases hn : notify ⟨toWorker, toWorkerIndex, toPaneId⟩ triggerMessage = true
    · simp [queueDirectMailboxMessage, teamSendMessage, teamMarkMessageNotified, hn, hw]
    · rw [Bool.not_eq_true] at hn
      simp [queueDirectMailboxMessage, teamSendMessage, hn, hw]

/-- Witness for C5 at a concrete input: an always-failing notify leaves
the single stored message with the stamp unset, and the other worker's
mailbox empty. -/
theorem queueDirectMailboxMessage_spec_witness :
    (queueDirectMailboxMessage emptyStore2 "worker-1" "worker-2" (some 2) none "hello"
        "check mailbox" "t1" notifyNever).mailboxes "worker-2" =
      emptyStore2.mailboxes "worker-2" ++
        [⟨emptyStore2.next_message_id, "worker-1", "worker-2", "hello", "t1",
          if notifyNever ⟨"worker-2", some 2, none⟩ "check mailbox" then some "t1"
          else none⟩] ∧
    (∀ w, w ≠ "worker-2" →
      (queueDirectMailboxMessage emptyStore2 "worker-1" "worker-2" (some 2) none "hello"
          "check mailbox" "t1" notifyNever).mailboxes w = emptyStore2.mailboxes w) :=
  queueDirectMailboxMessage_spec emptyStore2 "worker-1" "worker-2" (some 2) none "hello"
    "check mailbox" "t1" notifyNever
    (fun _ m hm => absurd hm (List.not_mem_nil m))

/-- C7: queueInboxInstruction first completes the durable overwrite of
the recipient's inbox and only then invokes the notify callback: the
emitted effect trace places the inbox write strictly before the pane
notification, and the notify callback is applied to the store as it
stands after the write, in which the recipient's inbox already holds the
new instruction text. -/
theorem queueInboxInstruction_spec (store : WorkerStore) (workerName : String)
    (workerIndex : Nat) (paneId : Option String) (inbox triggerMessage : String)
    (notify : WorkerStore → TeamNotifierTarget → String → Bool) :
    (queueInboxInstruction store workerName workerIndex paneId inbox triggerMessage
        notify).2.2 =
      [CommEvent.writeInbox workerName inbox,
       CommEvent.notifyPane workerName triggerMessage] ∧
    (∀ i, (queueInboxInstruction store workerName workerIndex paneId inbox triggerMessage
          notify).2.2.get? i = some (CommEvent.notifyPane workerName triggerMessage) →
      ∃ k, k < i ∧
        (queueInboxInstruction store workerName workerIndex paneId inbox triggerMessage
            notify).2.2.get? k = some (CommEvent.writeInbox workerName inbox)) ∧
    (queueInboxInstruction store workerName workerIndex paneId inbox triggerMessage
        notify).1 =
      notify (teamWriteWorkerInbox store workerName inbox)
        ⟨workerName, some workerIndex, paneId⟩ triggerMessage ∧
    (teamWriteWorkerInbox store workerName inbox).inboxes workerName = inbox := by
  refine ⟨rfl, ?_, rfl, by simp [teamWriteWorkerInbox]⟩
  intro i h
  match i, h with
  | 0, h => exact absurd h (by simp [queueInboxInstruction])
  | 1, _ => exact ⟨0, Nat.zero_lt_one, rfl⟩
  | (n + 2), h => exact absurd h (by simp [queueInboxInstruction])

/-- The broadcast recursion: the stored messages target exactly the
non-sender roster entries in order; every mailbox grows by precisely the
messages addressed to it; every stored message carries the sender, body
and creation time and an unset stamp, and a fresh id. -/
theorem teamBroadcastGo_spec (ws : List String) (fromWorker body atIso : String) :
    ∀ store : WorkerStore,
    ((teamBroadcastGo ws store fromWorker body atIso).1.map (fun m => m.to_worker) =
        ws.filter (fun w => w != fromWorker)) ∧
    (∀ w, (teamBroadcastGo ws store fromWorker body atIso).2.mailboxes w =
        store.mailboxes w ++
          (teamBroadcastGo ws store fromWorker body atIso).1.filter
            (fun m => m.to_worker == w)) ∧
    (∀ m ∈ (teamBroadcastGo ws store fromWorker body atIso).1,
        m.from_worker = fromWorker ∧ m.body = body ∧ m.created_at = atIso ∧
        m.notified_at = none ∧ store.next_message_id ≤ m.message_id) := by
  induction ws with
  | nil =>
      intro store
      exact ⟨rfl, fun w => by simp [teamBroadcastGo],
        fun m hm => absurd hm (List.not_mem_nil m)⟩
  | cons w rest ih =>
      intro store
      by_cases hw : w = fromWorker
      · subst hw
        have hstep : teamBroadcastGo (w :: rest) store w body atIso =
            teamBroadcastGo rest store w body atIso := by
          simp [teamBroadcastGo]
        rw [hstep]
        obtain ⟨ih1, ih2, ih3⟩ := ih store
        refine ⟨?_, ih2, ih3⟩
        rw [ih1, List.filter_cons]
        simp
      · simp only [teamBroadcastGo, if_neg hw]
        obtain ⟨ih1, ih2, ih3⟩ :=
          ih (teamSendMessage store fromWorker w body atIso).2
        refine ⟨?_, ?_, ?_⟩
        · rw [List.map_cons, ih1, List.filter_cons]
          simp [teamSendMessage, bne_iff_ne, hw]
        · intro w'
          rw [ih2 w', List.filter_cons]
          by_cases hww : w = w'
          · subst hww
            have hbeq :
                ((teamSendMessage store fromWorker w body atIso).1.to_worker == w) = true := by
              simp [teamSendMessage]
            rw [hbeq, if_pos rfl]
            have hmb : (teamSendMessage store fromWorker w body atIso).2.mailboxes w =
                store.mailboxes w ++ [(teamSendMessage store fromWorker w body atIso).1] := by
              simp [teamSendMessage]
            rw [hmb, List.append_assoc]
            rfl
          · have hbeq :
                ((teamSendMessage store fromWorker w body atIso).1.to_worker == w') = false := by
              simp only [teamSendMessage, beq_eq_false_iff_ne, ne_eq]
              exact hww
            rw [hbeq]
            have hmb : (teamSendMessage store fromWorker w body atIso).2.mailboxes w' =
                store.mailboxes w' := by
              simp only [teamSendMessage]
              exact if_neg fun h => hww h.symm
            rw [hmb]
            simp
        · intro m hm
          rcases List.mem_cons.mp hm with hm1 | hm2
          · subst hm1
            exact ⟨rfl, rfl, rfl, rfl, Nat.le_refl _⟩
          · obtain ⟨h1, h2, h3, h4, h5⟩ := ih3 m hm2
            exact ⟨h1, h2, h3, h4, Nat.le_trans (Nat.le_succ _) h5⟩

/-- The notify loop leaves every mailbox that none of its messages
addresses untouched. -/
theorem queueBroadcastLoop_untouched (recipients : List BroadcastRecipient)
    (triggerFor : String → String) (notify : TeamNotifierTarget → String → Bool)
    (atIso : String) (w : String) :
    ∀ (msgs : List MailboxMessage) (store : WorkerStore),
      (∀ m ∈ msgs, m.to_worker ≠ w) →
      (queueBroadcastLoop msgs store recipients triggerFor notify atIso).mailboxes w =
        store.mailboxes w := by
  intro msgs
  induction msgs with
  | nil => intro store _; rfl
  | cons m rest ih =>
      intro store hm
      cases hfind : recipients.find? (fun r => r.workerName == m.to_worker) with
      | none =>
          have hstep :
              queueBroadcastLoop (m :: rest) store recipients triggerFor notify atIso =
              queueBroadcastLoop rest store recipients triggerFor notify atIso := by
            simp [queueBroadcastLoop, hfind]
          rw [hstep]
          exact ih store fun m' h => hm m' (List.mem_cons_of_mem m h)
      | some r =>
          have hp0 := List.find?_some hfind
          have hp : (r.workerName == m.to_worker) = true := hp0
          have hrn : r.workerName = m.to_worker := eq_of_beq hp
          have hrw : w ≠ r.workerName := by
            rw [hrn]
            exact fun h => hm m (List.mem_cons_self m rest) h.symm
          have hstep :
              queueBroadcastLoop (m :: rest) store recipients triggerFor notify atIso =
              queueBroadcastLoop rest
                (if notify ⟨r.workerName, some r.workerIndex, r.paneId⟩
                    (triggerFor r.workerName) then
                   teamMarkMessageNotified store r.workerName m.message_id atIso
                 else store) recipients triggerFor notify atIso := by
            simp [queueBroadcastLoop, hfind]
          rw [hstep, ih _ fun m' h => hm m' (List.mem_cons_of_mem m h)]
          by_cases hn : notify ⟨r.workerName, some r.workerIndex, r.paneId⟩
              (triggerFor r.workerName) = true
          · rw [if_pos hn]
            exact teamMarkMessageNotified_ne store r.workerName m.message_id atIso w hrw
          · rw [if_neg hn]

/-- The notify loop on a message list that holds exactly one message for
a worker: that worker's mailbox keeps its prefix and its last message is
stamped exactly when the message's recipient is found and its notify
resolves true. -/
theorem queueBroadcastLoop_single (recipients : List BroadcastRecipient)
    (triggerFor : String → String) (notify : TeamNotifierTarget → String → Bool)
    (atIso : String) (w : String) :
    ∀ (msgs : List MailboxMessage) (store : WorkerStore) (orig : List MailboxMessage)
      (mw : MailboxMessage),
      mw.to_worker = w →
      msgs.filter (fun m => m.to_worker == w) = [mw] →
      store.mailboxes w = orig ++ [mw] →
      (∀ m' ∈ orig, m'.message_id ≠ mw.message_id) →
      (queueBroadcastLoop msgs store recipients triggerFor notify atIso).mailboxes w =
        orig ++
          [match recipients.find? (fun r => r.workerName == w) with
           | some r =>
               if notify ⟨r.workerName, some r.workerIndex, r.paneId⟩
                   (triggerFor r.workerName) then
                 { mw with notified_at := some atIso }
               else mw
           | none => mw] := by
  intro msgs
  induction msgs with
  | nil =>
      intro store orig mw _ hf _ _
      exact absurd hf (by simp)
  | cons m rest ih =>
      intro store orig mw hwt hf hmb hfr
      by_cases hm : (m.to_worker == w) = true
      · rw [List.filter_cons, if_pos hm] at hf
        injection hf with h1 h2
        subst h1
        have hmw : m.to_worker = w := eq_of_beq hm
        have hrest : ∀ m' ∈ rest, m'.to_worker ≠ w := by
          intro m' hm' he
          have : (m'.to_worker == w) = true := by rw [he]; exact beq_self_eq_true w
          have hmem : m' ∈ rest.filter (fun m'' => m''.to_worker == w) :=
            List.mem_filter.mpr ⟨hm', this⟩
          rw [h2] at hmem
          exact absurd hmem (List.not_mem_nil m')
        cases hfind : recipients.find? (fun r => r.workerName == w) with
        | none =>
            have hstep :
                queueBroadcastLoop (m :: rest) store recipients triggerFor notify atIso =
                queueBroadcastLoop rest store recipients triggerFor notify atIso := by
              simp only [queueBroadcastLoop, hmw, hfind]
            rw [hstep,
              queueBroadcastLoop_untouched recipients triggerFor notify atIso w rest store hrest,
              hmb]
        | some r =>
            have hstep :
                queueBroadcastLoop (m :: rest) store recipients triggerFor notify atIso =
                queueBroadcastLoop rest
                  (if notify ⟨r.workerName, some r.workerIndex, r.paneId⟩
                      (triggerFor r.workerName) then
                     teamMarkMessageNotified store r.workerName m.message_id atIso
                   else store) recipients triggerFor notify atIso := by
              simp only [queueBroadcastLoop, hmw, hfind]
            have hp0 := List.find?_some hfind
            have hp : (r.workerName == w) = true := hp0
            have hrn : r.workerName = w := eq_of_beq hp
            rw [hstep,
              queueBroadcastLoop_untouched recipients triggerFor notify atIso w rest _ hrest]
            by_cases hn : notify ⟨r.workerName, some r.workerIndex, r.paneId⟩
                (triggerFor r.workerName) = true
            · rw [if_pos hn, hrn]
              rw [teamMarkMessageNotified_append store w orig m atIso hmb hfr]
              simp [hn]
            · rw [if_neg hn, hmb]
              simp [hn]
      · rw [List.filter_cons, if_neg hm] at hf
        cases hfind : recipients.find? (fun r => r.workerName == m.to_worker) with
        | none =>
            have hstep :
                queueBroadcastLoop (m :: rest) store recipients triggerFor notify atIso =
                queueBroadcastLoop rest store recipients triggerFor notify atIso := by
              simp [queueBroadcastLoop, hfind]
            rw [hstep]
            exact ih store orig mw hwt hf hmb hfr
        | some r =>
            have hp0 := List.find?_some hfind
            have hp : (r.workerName == m.to_worker) = true := hp0
            have hrn : r.workerName = m.to_worker := eq_of_beq hp
            have hrw : w ≠ r.workerName := by
              rw [hrn]
              intro he
              exact hm (by rw [← he]; exact beq_self_eq_true w)
            have hstep :
                queueBroadcastLoop (m :: rest) store recipients triggerFor notify atIso =
                queueBroadcastLoop rest
                  (if notify ⟨r.workerName, some r.workerIndex, r.paneId⟩
                      (triggerFor r.workerName) then
                     teamMarkMessageNotified store r.workerName m.message_id atIso
                   else store) recipients triggerFor notify atIso := by
              simp [queueBroadcastLoop, hfind]
            rw [hstep]
            by_cases hn : notify ⟨r.workerName, some r.workerIndex, r.paneId⟩
                (triggerFor r.workerName) = true
            · rw [if_pos hn]
              refine ih _ orig mw hwt hf ?_ hfr
              rw [teamMarkMessageNotified_ne store r.workerName m.message_id atIso w hrw]
              exact hmb
            · rw [if_neg hn]
              exact ih store orig mw hwt hf hmb hfr

/-- A list of messages with pairwise distinct recipients holds exactly
one message for each recipient it addresses. -/
theorem filter_single_of_map_nodup (msgs : List MailboxMessage) (w : String)
    (hnd : (msgs.map (fun m => m.to_worker)).Nodup)
    (hm : w ∈ msgs.map (fun m => m.to_worker)) :
    ∃ mw ∈ msgs, mw.to_worker = w ∧
      msgs.filter (fun m => m.to_worker == w) = [mw] := by
  induction msgs with
  | nil => exact absurd hm (List.not_mem_nil w)
  | cons m rest ih =>
      rw [List.map_cons, List.nodup_cons] at hnd
      rcases List.mem_cons.mp hm with heq | hmem
      · have heq' : w = m.to_worker := heq
        refine ⟨m, List.mem_cons_self m rest, heq'.symm, ?_⟩
        rw [List.filter_cons, if_pos (by rw [← heq']; exact beq_self_eq_true w)]
        have hnone : ∀ m' ∈ rest, ¬((fun m'' => m''.to_worker == w) m' = true) := by
          intro m' hm' hbe
          have hb : m'.to_worker = w := eq_of_beq hbe
          refine hnd.1 ?_
          rw [← heq', ← hb]
          exact List.mem_map_of_mem (fun m'' => m''.to_worker) hm'
        rw [List.filter_eq_nil_iff.mpr hnone]
      · have hwne : w ≠ m.to_worker := fun h => hnd.1 (h ▸ hmem)
        obtain ⟨mw, hmw1, hmw2, hmw3⟩ := ih hnd.2 hmem
        refine ⟨mw, List.mem_cons_of_mem m hmw1, hmw2, ?_⟩
        rw [List.filter_cons,
          if_neg (by simp only [beq_iff_eq]; exact fun h => hwne h.symm), hmw3]

/-- C6: queueBroadcastMailboxMessage stores exactly one message per
roster worker excluding the sender (the sender's and every non-roster
mailbox is untouched), each stored message's recipient is notified
independently and the message's notified_at stamp is set exactly when
that recipient is listed and its own notify resolved true; the notify
callback reports failure as a resolved false by its type, so one
recipient's failure raises no error and leaves every other delivery
intact. -/
theorem queueBroadcastMailboxMessage_spec (store : WorkerStore) (fromWorker : String)
    (recipients : List BroadcastRecipient) (body atIso : String)
    (triggerFor : String → String) (notify : TeamNotifierTarget → String → Bool)
    (hfresh : freshIds store) (hnodup : store.workers.Nodup) :
    (∀ w ∈ store.workers, w ≠ fromWorker →
      ∃ mid,
        (queueBroadcastMailboxMessage store fromWorker recipients body atIso triggerFor
            notify).mailboxes w =
          store.mailboxes w ++
            [⟨mid, fromWorker, w, body, atIso,
              match recipients.find? (fun r => r.workerName == w) with
              | some r =>
                  if notify ⟨r.workerName, some r.workerIndex, r.paneId⟩
                      (triggerFor r.workerName) then some atIso
                  else none
              | none => none⟩]) ∧
    (∀ w, w ∉ store.workers ∨ w = fromWorker →
      (queueBroadcastMailboxMessage store fromWorker recipients body atIso triggerFor
          notify).mailboxes w = store.mailboxes w) := by
  obtain ⟨hmap, hmb, hmsg⟩ :=
    teamBroadcastGo_spec store.workers fromWorker body atIso store
  have hunfold :
      queueBroadcastMailboxMessage store fromWorker recipients body atIso triggerFor notify =
      queueBroadcastLoop (teamBroadcastGo store.workers store fromWorker body atIso).1
        (teamBroadcastGo store.workers store fromWorker body atIso).2
        recipients triggerFor notify atIso := rfl
  constructor
  · intro w hwmem hwne
    have hwf : w ∈ store.workers.filter (fun x => x != fromWorker) :=
      List.mem_filter.mpr ⟨hwmem, by simp only [bne_iff_ne, ne_eq, decide_not]; simp [hwne]⟩
    have hwmap :
        w ∈ (teamBroadcastGo store.workers store fromWorker body atIso).1.map
          (fun m => m.to_worker) := by
      rw [hmap]; exact hwf
    have hndmap :
        ((teamBroadcastGo store.workers store fromWorker body atIso).1.map
          (fun m => m.to_worker)).Nodup := by
      rw [hmap]; exact hnodup.filter _
    obtain ⟨mw, hmwmem, hmwto, hmwfilter⟩ :=
      filter_single_of_map_nodup _ w hndmap hwmap
    obtain ⟨hfw, hbd, hca, hna, hid⟩ := hmsg mw hmwmem
    have hafter :
        (teamBroadcastGo store.workers store fromWorker body atIso).2.mailboxes w =
          store.mailboxes w ++ [mw] := by
      rw [hmb w, hmwfilter]
    have horig : ∀ m' ∈ store.mailboxes w, m'.message_id ≠ mw.message_id := fun m' hm' =>
      Nat.ne_of_lt (Nat.lt_of_lt_of_le (hfresh w m' hm') hid)
    refine ⟨mw.message_id, ?_⟩
    rw [hunfold,
      queueBroadcastLoop_single recipients triggerFor notify atIso w _ _
        (store.mailboxes w) mw hmwto hmwfilter hafter horig]
    have hstruct : mw = ⟨mw.message_id, fromWorker, w, body, atIso, none⟩ := by
      cases mw with
      | mk i f t b c n =>
          dsimp at hfw hbd hca hna hmwto
          rw [hfw, hbd, hca, hna, hmwto]
    cases hfind : recipients.find? (fun r => r.workerName == w) with
    | none => rw [hstruct]
    | some r =>
        by_cases hn : notify ⟨r.workerName, some r.workerIndex, r.paneId⟩
            (triggerFor r.workerName) = true
        · rw [hstruct]; simp [hn]
        · rw [hstruct]; simp [hn]
  · intro w hw
    have hnotw :
        ∀ m ∈ (teamBroadcastGo store.workers store fromWorker body atIso).1,
          m.to_worker ≠ w := by
      intro m hmmem he
      have hmem2 :
          m.to_worker ∈ (teamBroadcastGo store.workers store fromWorker body atIso).1.map
            (fun m' => m'.to_worker) :=
        List.mem_map_of_mem (fun m' => m'.to_worker) hmmem
      rw [hmap, he] at hmem2
      have hin := List.mem_filter.mp hmem2
      rcases hw with h1 | h2
      · exact h1 hin.1
      · rw [h2] at hin
        have := hin.2
        simp [bne_iff_ne] at this
    have hempty :
        (teamBroadcastGo store.workers store fromWorker body atIso).1.filter
          (fun m => m.to_worker == w) = [] :=
      List.filter_eq_nil_iff.mpr fun m hmmem hbe => hnotw m hmmem (eq_of_beq hbe)
    rw [hunfold,
      queueBroadcastLoop_untouched recipients triggerFor notify atIso w _ _ hnotw,
      hmb w, hempty, List.append_nil]

/-- Witness for C6 at a concrete input: a three-worker roster with
worker-1 broadcasting to the 2 non-sender recipients, where notify
succeeds for worker-2 only; two messages are stored, only worker-2's is
stamped, and the partial failure disturbs nothing. -/
theorem queueBroadcastMailboxMessage_spec_witness :
    (∀ w ∈ emptyStore3.workers, w ≠ "worker-1" →
      ∃ mid,
        (queueBroadcastMailboxMessage emptyStore3 "worker-1"
            [⟨"worker-2", 2, none⟩, ⟨"worker-3", 3, none⟩] "broadcast-body" "t1"
            (fun wn => "check mailbox " ++ wn) notifyOnlyW2).mailboxes w =
          emptyStore3.mailboxes w ++
            [⟨mid, "worker-1", w, "broadcast-body", "t1",
              match ([⟨"worker-2", 2, none⟩, ⟨"worker-3", 3, none⟩] :
                  List BroadcastRecipient).find? (fun r => r.workerName == w) with
              | some r =>
                  if notifyOnlyW2 ⟨r.workerName, some r.workerIndex, r.paneId⟩
                      ("check mailbox " ++ r.workerName) then some "t1"
                  else none
              | none => none⟩]) ∧
    (∀ w, w ∉ emptyStore3.workers ∨ w = "worker-1" →
      (queueBroadcastMailboxMessage emptyStore3 "worker-1"
          [⟨"worker-2", 2, none⟩, ⟨"worker-3", 3, none⟩] "broadcast-body" "t1"
          (fun wn => "check mailbox " ++ wn) notifyOnlyW2).mailboxes w =
        emptyStore3.mailboxes w) :=
  queueBroadcastMailboxMessage_spec emptyStore3 "worker-1"
    [⟨"worker-2", 2, none⟩, ⟨"worker-3", 3, none⟩] "broadcast-body" "t1"
    (fun wn => "check mailbox " ++ wn) notifyOnlyW2
    (fun _ m hm => absurd hm (List.not_mem_nil m)) (by decide)

/-! ## Leader nudge service: theorems -/

/-- C8 amended: a multiplexer send failure is logged and never
propagated (the pass completes and still writes the nudge-state file),
but the per-team record is updated only when the send succeeds: on a
failed send it keeps its previous value, so the same nudge can fire
again on a later turn. -/
theorem maybeNudgeTeamLeaderTeam_spec (teamName : String) (prev : Option NudgeRecord)
    (prevAtMs : Option Nat) (newestId : String) (messageCount paneCount : Nat)
    (paneAlive leaderStale : Bool) (nowMs intervalMs : Nat) (nowIso marker : String)
    (sendOk : Bool) :
    (maybeNudgeTeamLeaderTeam teamName prev prevAtMs newestId messageCount paneCount
        paneAlive leaderStale nowMs intervalMs nowIso marker sendOk).state_persisted = true ∧
    (sendOk = false →
      (maybeNudgeTeamLeaderTeam teamName prev prevAtMs newestId messageCount paneCount
          paneAlive leaderStale nowMs intervalMs nowIso marker sendOk).record = prev ∧
      (maybeNudgeTeamLeaderTeam teamName prev prevAtMs newestId messageCount paneCount
          paneAlive leaderStale nowMs intervalMs nowIso marker sendOk).sent = none) ∧
    ((nudgeHasNewMessage prev newestId || nudgeDueByTime prevAtMs nowMs intervalMs) = true →
      sendOk = false →
      (maybeNudgeTeamLeaderTeam teamName prev prevAtMs newestId messageCount paneCount
          paneAlive leaderStale nowMs intervalMs nowIso marker sendOk).error_logged = true) ∧
    ((nudgeHasNewMessage prev newestId || nudgeDueByTime prevAtMs nowMs intervalMs) = true →
      sendOk = true →
      (maybeNudgeTeamLeaderTeam teamName prev prevAtMs newestId messageCount paneCount
          paneAlive leaderStale nowMs intervalMs nowIso marker sendOk).record =
        some ⟨nowIso, if newestId != "" then newestId else nudgePrevMsgId prev⟩ ∧
      (maybeNudgeTeamLeaderTeam teamName prev prevAtMs newestId messageCount paneCount
          paneAlive leaderStale nowMs intervalMs nowIso marker sendOk).error_logged = false) ∧
    ((nudgeHasNewMessage prev newestId || nudgeDueByTime prevAtMs nowMs intervalMs) = false →
      (maybeNudgeTeamLeaderTeam teamName prev prevAtMs newestId messageCount paneCount
          paneAlive leaderStale nowMs intervalMs nowIso marker sendOk).record = prev ∧
      (maybeNudgeTeamLeaderTeam teamName prev prevAtMs newestId messageCount paneCount
          paneAlive leaderStale nowMs intervalMs nowIso marker sendOk).error_logged = false) := by
  by_cases hfired :
      (nudgeHasNewMessage prev newestId || nudgeDueByTime prevAtMs nowMs intervalMs) = true
  · have hskip :
        (!nudgeHasNewMessage prev newestId && !nudgeDueByTime prevAtMs nowMs intervalMs) =
          false := by
      rw [← Bool.not_or, hfired]
      rfl
    cases sendOk with
    | false =>
        refine ⟨?_, fun _ => ⟨?_, ?_⟩, fun _ _ => ?_, fun _ hc => absurd hc (by simp),
          fun hc => absurd hc (by simp [hfired])⟩ <;>
          simp [maybeNudgeTeamLeaderTeam, hskip]
    | true =>
        refine ⟨?_, fun hc => absurd hc (by simp), fun _ hc => absurd hc (by simp),
          fun _ _ => ⟨?_, ?_⟩, fun hc => absurd hc (by simp [hfired])⟩ <;>
          simp [maybeNudgeTeamLeaderTeam, hskip]
  · have hfired' :
        (nudgeHasNewMessage prev newestId || nudgeDueByTime prevAtMs nowMs intervalMs) =
          false := by
      revert hfired
      cases nudgeHasNewMessage prev newestId || nudgeDueByTime prevAtMs nowMs intervalMs <;>
        simp
    have hskip :
        (!nudgeHasNewMessage prev newestId && !nudgeDueByTime prevAtMs nowMs intervalMs) =
          true := by
      rw [← Bool.not_or, hfired']
      rfl
    refine ⟨?_, fun _ => ⟨?_, ?_⟩, fun hc => absurd hc (by simp [hfired']),
      fun hc => absurd hc (by simp [hfired']), fun _ => ⟨?_, ?_⟩⟩ <;>
      simp [maybeNudgeTeamLeaderTeam, hskip]

/-- Witness for the amended C8 at a concrete input: a due nudge whose
send fails is logged and leaves the record at its previous value while
the state file is still persisted. -/
theorem maybeNudgeTeamLeaderTeam_spec_witness :
    (maybeNudgeTeamLeaderTeam "alpha" (some ⟨"t0", "m1"⟩) (some 0) "m2" 1 2 true false
        200000 120000 "t1" "MARK" false).state_persisted = true ∧
    (false = false →
      (maybeNudgeTeamLeaderTeam "alpha" (some ⟨"t0", "m1"⟩) (some 0) "m2" 1 2 true false
          200000 120000 "t1" "MARK" false).record = some ⟨"t0", "m1"⟩ ∧
      (maybeNudgeTeamLeaderTeam "alpha" (some ⟨"t0", "m1"⟩) (some 0) "m2" 1 2 true false
          200000 120000 "t1" "MARK" false).sent = none) ∧
    ((nudgeHasNewMessage (some ⟨"t0", "m1"⟩) "m2" ||
        nudgeDueByTime (some 0) 200000 120000) = true →
      false = false →
      (maybeNudgeTeamLeaderTeam "alpha" (some ⟨"t0", "m1"⟩) (some 0) "m2" 1 2 true false
          200000 120000 "t1" "MARK" false).error_logged = true) ∧
    ((nudgeHasNewMessage (some ⟨"t0", "m1"⟩) "m2" ||
        nudgeDueByTime (some 0) 200000 120000) = true →
      false = true →
      (maybeNudgeTeamLeaderTeam "alpha" (some ⟨"t0", "m1"⟩) (some 0) "m2" 1 2 true false
          200000 120000 "t1" "MARK" false).record =
        some ⟨"t1", if "m2" != "" then "m2" else nudgePrevMsgId (some ⟨"t0", "m1"⟩)⟩ ∧
      (maybeNudgeTeamLeaderTeam "alpha" (some ⟨"t0", "m1"⟩) (some 0) "m2" 1 2 true false
          200000 120000 "t1" "MARK" false).error_logged = false) ∧
    ((nudgeHasNewMessage (some ⟨"t0", "m1"⟩) "m2" ||
        nudgeDueByTime (some 0) 200000 120000) = false →
      (maybeNudgeTeamLeaderTeam "alpha" (some ⟨"t0", "m1"⟩) (some 0) "m2" 1 2 true false
          200000 120000 "t1" "MARK" false).record = some ⟨"t0", "m1"⟩ ∧
      (maybeNudgeTeamLeaderTeam "alpha" (some ⟨"t0", "m1"⟩) (some 0) "m2" 1 2 true false
          200000 120000 "t1" "MARK" false).error_logged = false) :=
  maybeNudgeTeamLeaderTeam_spec "alpha" (some ⟨"t0", "m1"⟩) (some 0) "m2" 1 2 true false
    200000 120000 "t1" "MARK" false

/-- C8 is false as stated: at a concrete due nudge whose three tmux
send-keys calls fail, the failure is logged and not thrown, yet the
persisted per-team record is not updated: it keeps its previous value
instead of the updated pair, so the claim that the record is updated
regardless of the send outcome does not hold. -/
theorem maybeNudgeTeamLeaderTeam_failed_send_keeps_record :
    (maybeNudgeTeamLeaderTeam "alpha" (some ⟨"t0", "m1"⟩) (some 0) "m2" 1 2 true false
        200000 120000 "t1" "MARK" false).error_logged = true ∧
    (maybeNudgeTeamLeaderTeam "alpha" (some ⟨"t0", "m1"⟩) (some 0) "m2" 1 2 true false
        200000 120000 "t1" "MARK" false).state_persisted = true ∧
    (maybeNudgeTeamLeaderTeam "alpha" (some ⟨"t0", "m1"⟩) (some 0) "m2" 1 2 true false
        200000 120000 "t1" "MARK" false).record = some ⟨"t0", "m1"⟩ ∧
    some (⟨"t0", "m1"⟩ : NudgeRecord) ≠ some (⟨"t1", "m2"⟩ : NudgeRecord) :=
  ⟨rfl, rfl, rfl, by decide⟩

/-! ## Health diagnostics: theorems -/

/-- C9: with the multiplexer available, a team record referencing an
absent session makes the check print resume_blocker and exit non-zero; a
live session matching the omx-team- naming convention with no team
record referencing it makes it print orphan_tmux_session and exit
non-zero; with the multiplexer entirely unavailable neither
session-dependent check fires and the exit is zero. -/
theorem teamDoctor_spec (sessions : List String) (teams : List TeamRecord) :
    (∀ t ∈ teams, sessions.contains t.tmux_session = false →
      "resume_blocker" ∈ teamDoctorSessionFindings (some sessions) teams ∧
      teamDoctorExitCode (some sessions) teams ≠ 0) ∧
    (∀ s ∈ sessions, s.startsWith "omx-team-" = true →
      (teams.any fun t => t.tmux_session == s) = false →
      "orphan_tmux_session" ∈ teamDoctorSessionFindings (some sessions) teams ∧
      teamDoctorExitCode (some sessions) teams ≠ 0) ∧
    teamDoctorSessionFindings none teams = [] ∧
    teamDoctorExitCode none teams = 0 := by
  refine ⟨?_, ?_, rfl, rfl⟩
  · intro t ht hmiss
    have hmem : "resume_blocker" ∈ teamDoctorSessionFindings (some sessions) teams := by
      simp only [teamDoctorSessionFindings]
      refine List.mem_append_left _ ?_
      exact List.mem_map.mpr
        ⟨t, List.mem_filter.mpr ⟨ht, by rw [hmiss]; rfl⟩, rfl⟩
    refine ⟨hmem, ?_⟩
    have hne : teamDoctorSessionFindings (some sessions) teams ≠ [] :=
      List.ne_nil_of_mem hmem
    simp only [teamDoctorExitCode, if_neg hne]
    exact one_ne_zero
  · intro s hs hpre hnorec
    have hmem : "orphan_tmux_session" ∈ teamDoctorSessionFindings (some sessions) teams := by
      simp only [teamDoctorSessionFindings]
      refine List.mem_append_right _ ?_
      exact List.mem_map.mpr
        ⟨s, List.mem_filter.mpr ⟨hs, by rw [hpre, hnorec]; rfl⟩, rfl⟩
    refine ⟨hmem, ?_⟩
    have hne : teamDoctorSessionFindings (some sessions) teams ≠ [] :=
      List.ne_nil_of_mem hmem
    simp only [teamDoctorExitCode, if_neg hne]
    exact one_ne_zero

/-- Witness for C9 at a concrete input: one team record pointing at an
absent session and one live orphan session firing both checks, and the
unavailable-multiplexer case firing neither. -/
theorem teamDoctor_spec_witness :
    (∀ t ∈ [(⟨"alpha", "omx-team-alpha"⟩ : TeamRecord)],
      (["omx-team-orphan"].contains t.tmux_session) = false →
      "resume_blocker" ∈
        teamDoctorSessionFindings (some ["omx-team-orphan"]) [⟨"alpha", "omx-team-alpha"⟩] ∧
      teamDoctorExitCode (some ["omx-team-orphan"]) [⟨"alpha", "omx-team-alpha"⟩] ≠ 0) ∧
    (∀ s ∈ ["omx-team-orphan"], s.startsWith "omx-team-" = true →
      ([(⟨"alpha", "omx-team-alpha"⟩ : TeamRecord)].any fun t => t.tmux_session == s) = false →
      "orphan_tmux_session" ∈
        teamDoctorSessionFindings (some ["omx-team-orphan"]) [⟨"alpha", "omx-team-alpha"⟩] ∧
      teamDoctorExitCode (some ["omx-team-orphan"]) [⟨"alpha", "omx-team-alpha"⟩] ≠ 0) ∧
    teamDoctorSessionFindings none [(⟨"alpha", "omx-team-alpha"⟩ : TeamRecord)] = [] ∧
    teamDoctorExitCode none [(⟨"alpha", "omx-team-alpha"⟩ : TeamRecord)] = 0 :=
  teamDoctor_spec ["omx-team-orphan"] [⟨"alpha", "omx-team-alpha"⟩]
